import Mathlib

/-
Verification of the two notebooks of the repository:
 * `neural_style_tutorial.ipynb` (neural style transfer), embedded in namespace `NST`;
 * the MNIST feature-extractor / classifier notebook, embedded in namespace `Classifier`.

Tensors are embedded as a shape together with the row-major flattened data over ℚ.
Framework layer kernels (convolution, pooling, batch normalization) are opaque
external primitives and are carried as plain functions `Tens → Tens`; everything
the repository itself defines (gram matrix, the loss modules, the model-building
scan, the training/optimization drivers) is translated concretely.
-/

/-- A tensor: its size (as returned by `.size()`) and its row-major flat data. -/
structure Tens where
  shape : List ℕ
  data : List ℚ
  deriving DecidableEq

/-- `F.relu` / `nn.ReLU`: elementwise `max 0`, preserving the shape. -/
def reluT (t : Tens) : Tens :=
  ⟨t.shape, t.data.map fun v => max 0 v⟩

namespace NST

/-- `F.mse_loss(input, target)` with the default mean reduction: the mean of the
elementwise squared differences (the two arguments have equal shapes at every call
site of the notebook). -/
def mse_loss (input target : Tens) : ℚ :=
  (List.zipWith (fun u v => (u - v) ^ 2) input.data target.data).sum
    / (input.data.length : ℚ)

/-- `gram_matrix` from the notebook: for an input of size `(a, b, c, d)` it views
the input as an `(a*b) × (c*d)` matrix `F` (`features`), forms `torch.mm(F, F.t())`
and divides every element by `a*b*c*d`.  The result is the flattened `(a*b) × (a*b)`
matrix.  (On a tensor that is not 4-dimensional the source unpacking
`a, b, c, d = input.size()` would raise; that case is unreachable in the notebook
and we return the input unchanged.) -/
def gram_matrix (t : Tens) : Tens :=
  match t.shape with
  | [a, b, c, d] =>
    ⟨[a * b, a * b],
      (List.range (a * b * (a * b))).map fun p =>
        (((List.range (c * d)).map fun k =>
            t.data.getD (p / (a * b) * (c * d) + k) 0 *
              t.data.getD (p % (a * b) * (c * d) + k) 0).sum)
          / ((a * b * c * d : ℕ) : ℚ)⟩
  | _ => t

/-- The reshape `input.view(a*b, c*d)` of the claim, as a Mathlib matrix
(entry `(i, k)` is flat element `i*(c*d) + k`). -/
def reshapeF (t : Tens) (K N : ℕ) : Matrix (Fin K) (Fin N) ℚ :=
  Matrix.of fun i k => t.data.getD (i.1 * N + k.1) 0

/-- The claim's description of `gram_matrix`: `F * Fᵀ` with every element divided
by `a*b*c*d`, the total number of elements of the input. -/
def gramSpec (t : Tens) (a b c d : ℕ) : Matrix (Fin (a * b)) (Fin (a * b)) ℚ :=
  Matrix.of fun i j =>
    (reshapeF t (a * b) (c * d) * (reshapeF t (a * b) (c * d)).transpose) i j
      / ((a * b * c * d : ℕ) : ℚ)

/-- The `ContentLoss` module: it stores the detached target feature map.
(`detach` only severs autograd tracking; it does not change the value.) -/
structure ContentLossM where
  target : Tens

/-- `ContentLoss.__init__(self, target)`: `self.target = target.detach()`. -/
def ContentLossM.init (target : Tens) : ContentLossM :=
  ⟨target⟩

/-- `ContentLoss.forward`: records `self.loss = F.mse_loss(input, self.target)`
and returns the input.  The first component is the recorded loss. -/
def ContentLossM.forward (m : ContentLossM) (input : Tens) : ℚ × Tens :=
  (mse_loss input m.target, input)

/-- The `StyleLoss` module: it stores the detached Gram matrix of the target
feature map. -/
structure StyleLossM where
  target : Tens

/-- `StyleLoss.__init__(self, target_feature)`:
`self.target = gram_matrix(target_feature).detach()`. -/
def StyleLossM.init (target_feature : Tens) : StyleLossM :=
  ⟨gram_matrix target_feature⟩

/-- `StyleLoss.forward`: records `self.loss = F.mse_loss(gram_matrix(input),
self.target)` and returns the input. -/
def StyleLossM.forward (m : StyleLossM) (input : Tens) : ℚ × Tens :=
  (mse_loss (gram_matrix input) m.target, input)

/-- The `Normalization` module: per-channel means and standard deviations
(stored viewed as `[C × 1 × 1]` so they broadcast over `[B × C × H × W]` images). -/
structure Normalization where
  mean : List ℚ
  std : List ℚ

/-- `Normalization.forward(self, img) = (img - self.mean) / self.std`, with the
per-channel broadcast over a `[B × C × H × W]` image: flat position `p` lies in
channel `p / (H*W) % C`.  (The notebook only ever feeds 4-dimensional images.) -/
def Normalization.forward (nm : Normalization) (img : Tens) : Tens :=
  match img.shape with
  | [_, ch, h, w] =>
    ⟨img.shape, (List.range img.data.length).map fun p =>
      (img.data.getD p 0 - nm.mean.getD (p / (h * w) % ch) 0)
        / nm.std.getD (p / (h * w) % ch) 0⟩
  | _ => img

/-- The four kinds of layers the rebuilding scan recognizes. -/
inductive Kind where
  | conv : Kind
  | relu : Kind
  | pool : Kind
  | bn : Kind
  deriving DecidableEq

/-- The naming stems of the scan: `conv_i`, `relu_i`, `pool_i`, `bn_i`. -/
def Kind.label : Kind → String
  | .conv => "conv_"
  | .relu => "relu_"
  | .pool => "pool_"
  | .bn => "bn_"

/-- A child module of the pretrained network handed to
`get_style_model_and_losses`.  A recognized child carries its (opaque) forward
function; any other kind of child only matters through its class name, which the
raised `RuntimeError` reports. -/
inductive Child where
  | conv2d (f : Tens → Tens)
  | reLU (inplace : Bool) (f : Tens → Tens)
  | maxPool2d (f : Tens → Tens)
  | batchNorm2d (f : Tens → Tens)
  | other (className : String)

/-- Whether a child is one of the four recognized layer classes. -/
def Child.isRecognized : Child → Bool
  | .other _ => false
  | _ => true

/-- The recognized kind of a child, if any. -/
def Child.kindOf : Child → Option Kind
  | .conv2d _ => some .conv
  | .reLU _ _ => some .relu
  | .maxPool2d _ => some .pool
  | .batchNorm2d _ => some .bn
  | .other _ => none

/-- Whether a child is a `Conv2d`. -/
def Child.isConv2d : Child → Bool
  | .conv2d _ => true
  | _ => false

/-- The number of `Conv2d` layers in a list of children. -/
def convCount (cs : List Child) : ℕ :=
  (cs.filter Child.isConv2d).length

/-- A module of the rebuilt `nn.Sequential` model. -/
inductive Module where
  | norm (nm : Normalization)
  | layer (name : String) (kind : Kind) (forwardFn : Tens → Tens)
  | contentTap (name : String) (m : ContentLossM)
  | styleTap (name : String) (m : StyleLossM)

/-- Whether a module is one of the two inserted loss-measurement modules
(`isinstance(model[i], ContentLoss) or isinstance(model[i], StyleLoss)`). -/
def Module.isLossModule : Module → Bool
  | .contentTap _ _ => true
  | .styleTap _ _ => true
  | _ => false

/-- Whether a module is an inserted `ContentLoss`. -/
def Module.isContentTap : Module → Bool
  | .contentTap _ _ => true
  | _ => false

/-- Whether a module is an inserted `StyleLoss`. -/
def Module.isStyleTap : Module → Bool
  | .styleTap _ _ => true
  | _ => false

/-- Running the rebuilt `nn.Sequential` on an input: the data-path output
together with the losses recorded by the content taps and by the style taps, in
traversal order.  (`model(x)` records `self.loss` in every inserted module; the
two lists are those recorded values.) -/
def modelForward : List Module → Tens → Tens × List ℚ × List ℚ
  | [], x => (x, [], [])
  | .norm nm :: rest, x => modelForward rest (nm.forward x)
  | .layer _ _ f :: rest, x => modelForward rest (f x)
  | .contentTap _ m :: rest, x =>
    let r := ContentLossM.forward m x
    let res := modelForward rest r.2
    (res.1, r.1 :: res.2.1, res.2.2)
  | .styleTap _ m :: rest, x =>
    let r := StyleLossM.forward m x
    let res := modelForward rest r.2
    (res.1, res.2.1, r.1 :: res.2.2)

/-- The data-path output of `model(x)`. -/
def seqForward (model : List Module) (x : Tens) : Tens :=
  (modelForward model x).1

/-- One dispatch step of the scan in `get_style_model_and_losses`: given the
running convolution counter `i`, a `Conv2d` increments it and is named
`conv_{i}`, a `ReLU` is named `relu_{i}` and replaced by an out-of-place
`nn.ReLU(inplace=False)` (whose forward is `reluT`), a `MaxPool2d` is named
`pool_{i}`, a `BatchNorm2d` is named `bn_{i}`, and anything else raises
`RuntimeError('Unrecognized layer: ' + class name)`. -/
def Child.classify : Child → ℕ → Except String (ℕ × String × Kind × (Tens → Tens))
  | .conv2d f, i => .ok (i + 1, "conv_" ++ toString (i + 1), .conv, f)
  | .reLU _ _, i => .ok (i, "relu_" ++ toString i, .relu, reluT)
  | .maxPool2d f, i => .ok (i, "pool_" ++ toString i, .pool, f)
  | .batchNorm2d f, i => .ok (i, "bn_" ++ toString i, .bn, f)
  | .other className, _ => .error ("Unrecognized layer: " ++ className)

/-- The layer-insertion loop of `get_style_model_and_losses`, with the model
under construction and the `content_losses` / `style_losses` lists as explicit
accumulators.  After a child is added under its name, if that name is in
`content_layers` a `ContentLoss` built from `model(content_img).detach()` is
appended (and recorded in `content_losses`); then, if the name is in
`style_layers`, a `StyleLoss` built from `model(style_img)` is appended (and
recorded in `style_losses`). -/
def buildLoop (contentLayers styleLayers : List String) (contentImg styleImg : Tens) :
    List Child → ℕ → List Module → List ContentLossM → List StyleLossM →
      Except String (List Module × List ContentLossM × List StyleLossM)
  | [], _, model, contentLosses, styleLosses => .ok (model, contentLosses, styleLosses)
  | c :: rest, i, model, contentLosses, styleLosses =>
    match c.classify i with
    | .error e => .error e
    | .ok (i', name, kind, fn) =>
      let model1 := model ++ [Module.layer name kind fn]
      let withContent :=
        if name ∈ contentLayers then
          let cmod := ContentLossM.init (seqForward model1 contentImg)
          (model1 ++ [Module.contentTap ("content_loss_" ++ toString i') cmod],
           contentLosses ++ [cmod])
        else (model1, contentLosses)
      let withStyle :=
        if name ∈ styleLayers then
          let smod := StyleLossM.init (seqForward withContent.1 styleImg)
          (withContent.1 ++ [Module.styleTap ("style_loss_" ++ toString i') smod],
           styleLosses ++ [smod])
        else (withContent.1, styleLosses)
      buildLoop contentLayers styleLayers contentImg styleImg rest i'
        withStyle.1 withContent.2 withStyle.2

/-- The accumulator update of one iteration of the scan, factored out of
`buildLoop`: append the named layer, then the optional content tap, then the
optional style tap; returns the updated `(model, content_losses, style_losses)`
triple. -/
def buildStep (contentLayers styleLayers : List String) (contentImg styleImg : Tens)
    (name : String) (kind : Kind) (fn : Tens → Tens) (i' : ℕ)
    (model : List Module) (contentLosses : List ContentLossM)
    (styleLosses : List StyleLossM) :
    List Module × List ContentLossM × List StyleLossM :=
  let model1 := model ++ [Module.layer name kind fn]
  let withContent :=
    if name ∈ contentLayers then
      let cmod := ContentLossM.init (seqForward model1 contentImg)
      (model1 ++ [Module.contentTap ("content_loss_" ++ toString i') cmod],
       contentLosses ++ [cmod])
    else (model1, contentLosses)
  let withStyle :=
    if name ∈ styleLayers then
      let smod := StyleLossM.init (seqForward withContent.1 styleImg)
      (withContent.1 ++ [Module.styleTap ("style_loss_" ++ toString i') smod],
       styleLosses ++ [smod])
    else (withContent.1, styleLosses)
  (withStyle.1, withContent.2, withStyle.2)

/-- The trimming index: `for i in range(len(model) - 1, -1, -1): if ...: break`.
The loop scans from the back and stops at the first loss module; if there is
none, the loop variable ends at `0` (the model always contains at least the
normalization module). -/
def lastLossIdx (model : List Module) : ℕ :=
  let j := model.reverse.findIdx Module.isLossModule
  if j < model.length then model.length - 1 - j else 0

/-- `content_layers_default = ['conv_4']`. -/
def content_layers_default : List String := ["conv_4"]

/-- `style_layers_default = ['conv_1', 'conv_2', 'conv_3', 'conv_4', 'conv_5']`. -/
def style_layers_default : List String :=
  ["conv_1", "conv_2", "conv_3", "conv_4", "conv_5"]

/-- `get_style_model_and_losses`: deep-copies the network (the embedding is
pure, so the argument is only read), starts a new `nn.Sequential` from the
normalization module, runs the scan, trims the result to `model[:(i + 1)]`
where `i` is the trimming index, and returns
`(model, style_losses, content_losses)`. -/
def get_style_model_and_losses (cnn : List Child)
    (normalization_mean normalization_std : List ℚ)
    (style_img content_img : Tens)
    (content_layers style_layers : List String) :
    Except String (List Module × List StyleLossM × List ContentLossM) :=
  let normalization := Normalization.mk normalization_mean normalization_std
  match buildLoop content_layers style_layers content_img style_img cnn 0
      [Module.norm normalization] [] [] with
  | .error e => .error e
  | .ok (model, content_losses, style_losses) =>
    .ok (model.take (lastLossIdx model + 1), style_losses, content_losses)

/-- The L-BFGS optimizer built by `get_input_optimizer`, reduced to what the
claims depend on: the list of parameters registered with it. -/
structure Optimizer where
  params : List Tens

/-- `get_input_optimizer(input_img) = optim.LBFGS([input_img.requires_grad_()])`:
the input image is the sole registered parameter. -/
def get_input_optimizer (input_img : Tens) : Optimizer :=
  Optimizer.mk [input_img]

/-- The objective computed by the closure in `run_style_transfer`: after
`model(input_img)`, `style_score` accumulates `sl.loss` over `style_losses` and
is multiplied by `style_weight`, `content_score` accumulates `cl.loss` over
`content_losses` and is multiplied by `content_weight`, and the closure returns
`style_score + content_score`. -/
def closure_objective (model : List Module) (input_img : Tens)
    (style_weight content_weight : ℚ) : ℚ :=
  let r := modelForward model input_img
  let style_score := (r.2.2.foldl (· + ·) 0) * style_weight
  let content_score := (r.2.1.foldl (· + ·) 0) * content_weight
  style_score + content_score

/-- `input_img.data.clamp_(0, 1)`: clamp every entry into `[0, 1]`. -/
def clamp01 (t : Tens) : Tens :=
  ⟨t.shape, t.data.map fun v => max 0 (min 1 v)⟩

/-- The mutable state touched by `run_style_transfer`: the pretrained network
passed in and the input image being optimized. -/
structure TransferState where
  cnn : List Child
  input_img : Tens

/-- `run_style_transfer`: builds the style model from the network, builds the
input optimizer, then repeatedly runs `optimizer.step(closure)` — each step
clamps the input image into `[0, 1]` and lets the (opaque) L-BFGS step
`lbfgs_step` update the image using the closure objective — and finally clamps
once more and returns.  The bounded iterate stands for the
`while run[0] <= num_steps` loop (the exact number of closure calls per L-BFGS
step is internal to the optimizer). -/
def run_style_transfer (lbfgs_step : (Tens → ℚ) → Tens → Tens)
    (st : TransferState)
    (normalization_mean normalization_std : List ℚ)
    (content_img style_img : Tens)
    (num_steps : ℕ) (style_weight content_weight : ℚ)
    (content_layers style_layers : List String) :
    Except String TransferState :=
  match get_style_model_and_losses st.cnn normalization_mean normalization_std
      style_img content_img content_layers style_layers with
  | .error e => .error e
  | .ok (model, _styleLosses, _contentLosses) =>
    let step := fun img =>
      lbfgs_step (fun t => closure_objective model t style_weight content_weight)
        (clamp01 img)
    .ok { st with input_img := clamp01 (step^[num_steps] st.input_img) }

/-- The shape of a module of the rebuilt model, forgetting forward functions and
stored targets: used to state the structural claim about the scan. -/
inductive Desc where
  | norm : Desc
  | layer (name : String) (kind : Kind) : Desc
  | contentTap (name : String) : Desc
  | styleTap (name : String) : Desc
  deriving DecidableEq

/-- The shape of a module. -/
def Module.describe : Module → Desc
  | .norm _ => .norm
  | .layer name kind _ => .layer name kind
  | .contentTap name _ => .contentTap name
  | .styleTap name _ => .styleTap name

/-- Whether a described module is an inserted loss module. -/
def Desc.isTap : Desc → Bool
  | .contentTap _ => true
  | .styleTap _ => true
  | _ => false

/-- The claim's description of one pass of the scan, written independently of the
builder: the `k`-th child is named `kind_i` where `i` is the number of `Conv2d`
layers seen so far (`seen` is the prefix of children already processed), it is
appended, and a content tap and/or a style tap is spliced immediately after it
when its name is in the respective layer list. -/
def specDescGo (contentLayers styleLayers : List String) :
    List Child → List Child → List Desc
  | _, [] => []
  | seen, c :: rest =>
    match c.kindOf with
    | some k =>
      Desc.layer (k.label ++ toString (convCount (seen ++ [c]))) k ::
        ((if k.label ++ toString (convCount (seen ++ [c])) ∈ contentLayers then
            [Desc.contentTap ("content_loss_" ++ toString (convCount (seen ++ [c])))]
          else []) ++
         ((if k.label ++ toString (convCount (seen ++ [c])) ∈ styleLayers then
             [Desc.styleTap ("style_loss_" ++ toString (convCount (seen ++ [c])))]
           else []) ++
          specDescGo contentLayers styleLayers (seen ++ [c]) rest))
    | none => []

/-- The claim's description of the whole (untrimmed) rebuilt model: the children
in order, with their taps, after a normalization module. -/
def specModelDesc (contentLayers styleLayers : List String)
    (children : List Child) : List Desc :=
  Desc.norm :: specDescGo contentLayers styleLayers [] children

/-- The claim's description of the trimming step: remove every layer after the
last inserted loss module, i.e. drop the maximal tap-free suffix. -/
def specTrim (l : List Desc) : List Desc :=
  (l.reverse.dropWhile fun d => !d.isTap).reverse

/-- The number of inserted loss modules in a model. -/
def countLossModules (model : List Module) : ℕ :=
  (model.filter Module.isLossModule).length

/-- The number of inserted `ContentLoss` modules in a model. -/
def countContentTaps (model : List Module) : ℕ :=
  (model.filter Module.isContentTap).length

/-- The number of inserted `StyleLoss` modules in a model. -/
def countStyleTaps (model : List Module) : ℕ :=
  (model.filter Module.isStyleTap).length

/-- The class name of the first child of the network that is none of `Conv2d`,
`ReLU`, `MaxPool2d`, `BatchNorm2d` — the child at which the scan raises. -/
def firstUnrecognizedName : List Child → Option String
  | [] => none
  | .other className :: _ => some className
  | _ :: rest => firstUnrecognizedName rest

/-- A model with the inserted loss modules removed. -/
def stripLosses (model : List Module) : List Module :=
  model.filter fun m => !m.isLossModule

/-- `cnn_normalization_mean = torch.tensor([0.485, 0.456, 0.406])`. -/
def cnn_normalization_mean : List ℚ := [485/1000, 456/1000, 406/1000]

/-- `cnn_normalization_std = torch.tensor([0.229, 0.224, 0.225])`. -/
def cnn_normalization_std : List ℚ := [229/1000, 224/1000, 225/1000]

/-- Modelled from the spec: the notebook runs the scan on
`models.vgg19(pretrained=True).features`, the convolutional part of the
pretrained 19-layer VGG network, "a sequence (Conv2d, ReLU, MaxPool2d, Conv2d,
ReLU…)".  That network lives in `torchvision`, outside this repository; its
children follow the standard VGG-19 configuration (2, 2, 4, 4, 4 convolutions,
each followed by a ReLU, with a max-pooling after each group).  The opaque
forward functions are irrelevant to every statement made about this list and are
taken to be the identity. -/
def vgg19Features : List Child :=
  [Child.conv2d id, Child.reLU true id, Child.conv2d id, Child.reLU true id,
   Child.maxPool2d id,
   Child.conv2d id, Child.reLU true id, Child.conv2d id, Child.reLU true id,
   Child.maxPool2d id,
   Child.conv2d id, Child.reLU true id, Child.conv2d id, Child.reLU true id,
   Child.conv2d id, Child.reLU true id, Child.conv2d id, Child.reLU true id,
   Child.maxPool2d id,
   Child.conv2d id, Child.reLU true id, Child.conv2d id, Child.reLU true id,
   Child.conv2d id, Child.reLU true id, Child.conv2d id, Child.reLU true id,
   Child.maxPool2d id,
   Child.conv2d id, Child.reLU true id, Child.conv2d id, Child.reLU true id,
   Child.conv2d id, Child.reLU true id, Child.conv2d id, Child.reLU true id,
   Child.maxPool2d id]

/-- A concrete 4-dimensional image used to exercise the builder. -/
def img4 : Tens := ⟨[1, 3, 2, 2], List.replicate 12 (1/2)⟩

/-- A small concrete network used by witnesses: five convolutions with
activations and a pooling layer, so that the default layer selections all fire. -/
def smallCnn : List Child :=
  [Child.conv2d id, Child.reLU true id, Child.conv2d id, Child.reLU true id,
   Child.maxPool2d id, Child.conv2d id, Child.conv2d id, Child.conv2d id]

/-- The builder run on the small concrete network with the default selections. -/
def build0 : Except String (List Module × List StyleLossM × List ContentLossM) :=
  get_style_model_and_losses smallCnn cnn_normalization_mean cnn_normalization_std
    img4 img4 content_layers_default style_layers_default

/-- The model component of `build0`. -/
def model0 : List Module :=
  match build0 with
  | .ok r => r.1
  | .error _ => []

/-- The style-loss list of `build0`. -/
def styleLosses0 : List StyleLossM :=
  match build0 with
  | .ok r => r.2.1
  | .error _ => []

/-- The content-loss list of `build0`. -/
def contentLosses0 : List ContentLossM :=
  match build0 with
  | .ok r => r.2.2
  | .error _ => []

/-- Every style tap of the model stores the Gram matrix of some feature map. -/
def styleTargetsAreGrams (model : List Module) : Prop :=
  ∀ name sm, Module.styleTap name sm ∈ model → ∃ t, sm.target = gram_matrix t

/-- A trivial transfer state used to witness `run_style_transfer`. -/
def st0 : TransferState := ⟨[], ⟨[], []⟩⟩

end NST

namespace Classifier

/-- `nn.Linear(inF, outF)`: weights indexed as `weight[out][in]`, bias per output
feature.  `forward` on a 2-dimensional input `[n, k]` computes `x Aᵀ + b`,
yielding shape `[n, outF]`.  (The notebook only applies its linear layers to
2-dimensional inputs of the matching width.) -/
structure Linear where
  inF : ℕ
  outF : ℕ
  weight : ℕ → ℕ → ℚ
  bias : ℕ → ℚ

/-- The forward pass of `nn.Linear` on a `[n, k]` tensor. -/
def Linear.forward (L : Linear) (t : Tens) : Tens :=
  match t.shape with
  | [n, k] =>
    ⟨[n, L.outF],
      (List.range (n * L.outF)).map fun p =>
        (((List.range k).map fun j =>
            L.weight (p % L.outF) j * t.data.getD (p / L.outF * k + j) 0).sum)
          + L.bias (p % L.outF)⟩
  | _ => t

/-- The parameters of `Net` from the classifier notebook.  The convolution,
2-dimensional batch-norm and pooling kernels are opaque framework primitives and
are carried as functions; the two fully connected layers are concrete `Linear`
modules; `bfn1` is the `BatchNorm1d(52)` and `dropNoise` is the random mask
applied by `F.dropout` when training. -/
structure NetP where
  conv1 : Tens → Tens
  b1 : Tens → Tens
  pool : Tens → Tens
  conv2 : Tens → Tens
  b2 : Tens → Tens
  conv3 : Tens → Tens
  b3 : Tens → Tens
  fcn1 : Linear
  bfn1 : Tens → Tens
  fcn2 : Linear
  dropNoise : Tens → Tens

/-- `Net.__init__`: the fully connected head is `nn.Linear(128 * 1 * 1, 52)`
followed by `nn.BatchNorm1d(52)` and `nn.Linear(52, 10)`. -/
def Net.init (conv1 b1 pool conv2 b2 conv3 b3 : Tens → Tens)
    (bfn1 dropNoise : Tens → Tens)
    (w1 : ℕ → ℕ → ℚ) (c1 : ℕ → ℚ) (w2 : ℕ → ℕ → ℚ) (c2 : ℕ → ℚ) : NetP :=
  { conv1 := conv1, b1 := b1, pool := pool, conv2 := conv2, b2 := b2,
    conv3 := conv3, b3 := b3,
    fcn1 := ⟨128 * 1 * 1, 52, w1, c1⟩, bfn1 := bfn1,
    fcn2 := ⟨52, 10, w2, c2⟩, dropNoise := dropNoise }

/-- `F.dropout(x, training=self.training)`: the identity when not training,
otherwise an opaque random rescaling mask. -/
def dropoutF (training : Bool) (noise : Tens → Tens) (x : Tens) : Tens :=
  if training then noise x else x

/-- `Net.num_flat_features`: the product of all dimensions except the batch
dimension (`num_features *= s` over `x.size()[1:]`). -/
def num_flat_features (t : Tens) : ℕ :=
  (t.shape.drop 1).foldl (· * ·) 1

/-- `x.view(-1, self.num_flat_features(x))`: the inferred row count is the total
number of elements divided by the flat feature count. -/
def viewFlat (t : Tens) : Tens :=
  ⟨[t.shape.foldl (· * ·) 1 / num_flat_features t, num_flat_features t], t.data⟩

/-- `Net.forward`: three convolution blocks
(`x = self.pool(F.relu(self.bN(self.convN(x))))`), the flattening view, then the
fully connected head `fcn2(dropout(relu(bfn1(fcn1(x)))))`. -/
def Net.forward (p : NetP) (training : Bool) (x : Tens) : Tens :=
  let x1 := p.pool (reluT (p.b1 (p.conv1 x)))
  let x2 := p.pool (reluT (p.b2 (p.conv2 x1)))
  let x3 := p.pool (reluT (p.b3 (p.conv3 x2)))
  let xf := viewFlat x3
  let x4 := dropoutF training p.dropNoise (reluT (p.bfn1 (p.fcn1.forward xf)))
  p.fcn2.forward x4

/-- The claim's convolution block: a `Conv2d`, a `BatchNorm2d`, a `ReLU` and a
`MaxPool2d`, in that order. -/
def convBlockSpec (conv bn pool : Tens → Tens) (x : Tens) : Tens :=
  pool (reluT (bn (conv x)))

/-- The fully connected head of `Net.forward`, applied after the three blocks. -/
def fcHead (p : NetP) (training : Bool) (x : Tens) : Tens :=
  p.fcn2.forward
    (dropoutF training p.dropNoise (reluT (p.bfn1 (p.fcn1.forward (viewFlat x)))))

/-- The optimizer choices the notebook could have made. -/
inductive OptimizerSpec where
  | sgd (lr momentum : ℚ)
  | lbfgs : OptimizerSpec
  | adam (lr : ℚ)

/-- `optimizer = optim.SGD(model.parameters(), lr=0.001, momentum=0.9)`. -/
def classifierOptimizer : OptimizerSpec :=
  .sgd (1/1000) (9/10)

/-- One iteration of the training loop, parameter part: `optimizer.zero_grad()`,
`outputs = model(inputs)` in training mode, `loss = criterion(outputs, labels)`
with `criterion = nn.CrossEntropyLoss()`, `loss.backward()`, `optimizer.step()`.
Autograd and the SGD update rule are opaque framework primitives, carried as
`gradOf` and `sgdStep`.  (The notebook additionally accumulates
`running_loss` / `total` / `correct`, which feed only the progress prints.) -/
def trainStep (sgdStep : NetP → NetP → NetP)
    (crossEntropy : Tens → List ℕ → ℚ)
    (gradOf : (NetP → ℚ) → NetP → NetP)
    (p : NetP) (batch : Tens × List ℕ) : NetP :=
  sgdStep p (gradOf (fun q => crossEntropy (Net.forward q true batch.1) batch.2) p)

/-- `train(epoch)`: one pass over the loader, performing one optimizer step per
batch. -/
def train (sgdStep : NetP → NetP → NetP)
    (crossEntropy : Tens → List ℕ → ℚ)
    (gradOf : (NetP → ℚ) → NetP → NetP)
    (batches : List (Tens × List ℕ)) (p : NetP) : NetP :=
  batches.foldl (trainStep sgdStep crossEntropy gradOf) p

/-- The evaluation loop of the "Test feature extraction" section:
`model.eval()` then `outputs_eval = model(images_eval)` — the full forward in
evaluation mode. -/
def evalOutputs (p : NetP) (images : Tens) : Tens :=
  Net.forward p false images

/-- A concrete instantiation of `Net` with identity kernels and zero weights,
used to evaluate the forward pass. -/
def net0 : NetP :=
  Net.init id id id id id id id id id (fun _ _ => 0) (fun _ => 0)
    (fun _ _ => 0) (fun _ => 0)

/-- A concrete batch of one feature map of MNIST dimensions at the last
convolution block's output: shape `[1, 128, 1, 1]` (a 28×28 MNIST image reaches
exactly this shape after the three blocks, per the layer comments in the
notebook). -/
def img0 : Tens := ⟨[1, 128, 1, 1], List.replicate 128 0⟩

end Classifier

namespace NST

theorem foldl_add_eq_sum (l : List ℚ) (a : ℚ) : l.foldl (· + ·) a = a + l.sum := by
  induction l generalizing a with
  | nil => simp
  | cons x xs ih => rw [List.foldl_cons, ih (a + x), List.sum_cons]; ring

theorem rangeMap_getD (n m : ℕ) (f : ℕ → ℚ) (d : ℚ) (h : m < n) :
    ((List.range n).map f).getD m d = f m := by
  rw [List.getD_eq_getElem?_getD, List.getElem?_map, List.getElem?_range h]
  rfl

theorem rangeMapSum (n : ℕ) (f : ℕ → ℚ) :
    ((List.range n).map f).sum = ∑ k in Finset.range n, f k := by
  induction n with
  | zero => simp
  | succ m ih =>
    rw [List.range_succ, List.map_append, List.sum_append, Finset.sum_range_succ, ih]
    simp

/-- C5: `gram_matrix(input)`, for every 4-dimensional input of size
`(a, b, c, d)`, returns the inner-product matrix of the flattened feature maps:
with `F` the input reshaped to an `(a*b) × (c*d)` matrix, the result is
`F * Fᵀ` with every element divided by `a*b*c*d`, the total number of elements
of the input. -/
theorem c5_gram_matrix_is_normalized_inner_products (t : Tens) (a b c d : ℕ)
    (hs : t.shape = [a, b, c, d]) :
    (gram_matrix t).shape = [a * b, a * b] ∧
    ∀ i j : Fin (a * b),
      (gram_matrix t).data.getD (i.1 * (a * b) + j.1) 0 = gramSpec t a b c d i j := by
  obtain ⟨sh, da⟩ := t
  simp only at hs
  subst hs
  refine ⟨rfl, ?_⟩
  intro i j
  have hKpos : 0 < a * b := by have := i.isLt; omega
  have hlt : i.1 * (a * b) + j.1 < a * b * (a * b) := by
    have hi := i.isLt
    have hj := j.isLt
    calc i.1 * (a * b) + j.1 < i.1 * (a * b) + (a * b) := by omega
      _ = (i.1 + 1) * (a * b) := by ring
      _ ≤ a * b * (a * b) := Nat.mul_le_mul_right _ hi
  show ((List.range (a * b * (a * b))).map fun p =>
      (((List.range (c * d)).map fun k =>
          da.getD (p / (a * b) * (c * d) + k) 0 *
            da.getD (p % (a * b) * (c * d) + k) 0).sum)
        / ((a * b * c * d : ℕ) : ℚ)).getD (i.1 * (a * b) + j.1) 0
    = gramSpec ⟨[a, b, c, d], da⟩ a b c d i j
  rw [rangeMap_getD _ _ _ _ hlt]
  have hdiv : (i.1 * (a * b) + j.1) / (a * b) = i.1 := by
    rw [Nat.mul_comm i.1 (a * b), Nat.mul_add_div hKpos, Nat.div_eq_of_lt j.isLt,
      Nat.add_zero]
  have hmod : (i.1 * (a * b) + j.1) % (a * b) = j.1 := by
    rw [Nat.mul_comm i.1 (a * b), Nat.mul_add_mod, Nat.mod_eq_of_lt j.isLt]
  rw [hdiv, hmod]
  simp only [gramSpec, reshapeF, Matrix.of_apply, Matrix.mul_apply,
    Matrix.transpose_apply]
  congr 1
  rw [rangeMapSum,
    ← Fin.sum_univ_eq_sum_range
      (fun k => da.getD (i.1 * (c * d) + k) 0 * da.getD (j.1 * (c * d) + k) 0) (c * d)]

/-- Witness for C5 at the concrete image `img4` of shape `(1, 3, 2, 2)`. -/
theorem c5_witness :
    img4.shape = [1, 3, 2, 2] ∧
    (gram_matrix img4).data.getD 0 0 = gramSpec img4 1 3 2 2 ⟨0, by decide⟩ ⟨0, by decide⟩ := by
  refine ⟨rfl, ?_⟩
  have h := (c5_gram_matrix_is_normalized_inner_products img4 1 3 2 2 rfl).2
    ⟨0, by decide⟩ ⟨0, by decide⟩
  simpa using h

/-- C6: the content loss and the style loss recorded at a layer are scalar
measures of activation similarity and Gram-matrix similarity respectively:
`ContentLoss.forward` stores `self.loss = mse_loss(input, target)` against the
detached activations of the content image, and `StyleLoss.forward` stores
`self.loss = mse_loss(gram_matrix(input), G_target)` where `G_target` is the
Gram matrix of the style image's feature maps; `mse_loss` is the mean of the
elementwise squared differences. -/
theorem c6_content_and_style_losses_are_mse (target target_feature input : Tens) :
    ContentLossM.forward (ContentLossM.init target) input
      = (mse_loss input target, input) ∧
    StyleLossM.forward (StyleLossM.init target_feature) input
      = (mse_loss (gram_matrix input) (gram_matrix target_feature), input) ∧
    (ContentLossM.init target).target = target ∧
    mse_loss input target
      = (List.zipWith (fun u v => (u - v) ^ 2) input.data target.data).sum
          / (input.data.length : ℚ) :=
  ⟨rfl, rfl, rfl, rfl⟩

/-- C9: the inserted loss modules are identity maps on the data path — both
forwards return their input unchanged, and the data output of the spliced model
equals the data output of the same model with every loss module removed. -/
theorem c9_loss_modules_are_transparent (cm : ContentLossM) (sm : StyleLossM)
    (x : Tens) (model : List Module) :
    (ContentLossM.forward cm x).2 = x ∧
    (StyleLossM.forward sm x).2 = x ∧
    (modelForward model x).1 = (modelForward (stripLosses model) x).1 := by
  refine ⟨rfl, rfl, ?_⟩
  induction model generalizing x with
  | nil => rfl
  | cons m rest ih =>
    cases m with
    | norm nm =>
      simpa [modelForward, stripLosses, List.filter_cons, Module.isLossModule] using
        ih (nm.forward x)
    | layer name kind f =>
      simpa [modelForward, stripLosses, List.filter_cons, Module.isLossModule] using
        ih (f x)
    | contentTap name cm2 =>
      simpa [modelForward, stripLosses, List.filter_cons, Module.isLossModule,
        ContentLossM.forward] using ih x
    | styleTap name sm2 =>
      simpa [modelForward, stripLosses, List.filter_cons, Module.isLossModule,
        StyleLossM.forward] using ih x

end NST

namespace Classifier

/-- C4: `Net.forward` applies exactly three convolution blocks — each a
`Conv2d`, a `BatchNorm2d`, a `ReLU` and a `MaxPool2d`, in that order — before
the fully connected head, and the training loop performs one step of the
`optim.SGD` optimizer (`lr=0.001, momentum=0.9`) on a cross-entropy loss for
every batch. -/
theorem c4_three_blocks_trained_with_sgd
    (conv1 b1 pool conv2 b2 conv3 b3 bfn1 dn : Tens → Tens)
    (w1 : ℕ → ℕ → ℚ) (c1 : ℕ → ℚ) (w2 : ℕ → ℕ → ℚ) (c2 : ℕ → ℚ)
    (training : Bool) (x : Tens)
    (sgdStep : NetP → NetP → NetP) (crossEntropy : Tens → List ℕ → ℚ)
    (gradOf : (NetP → ℚ) → NetP → NetP)
    (batches : List (Tens × List ℕ)) (p : NetP) :
    Net.forward (Net.init conv1 b1 pool conv2 b2 conv3 b3 bfn1 dn w1 c1 w2 c2)
        training x
      = fcHead (Net.init conv1 b1 pool conv2 b2 conv3 b3 bfn1 dn w1 c1 w2 c2)
          training
          (convBlockSpec conv3 b3 pool
            (convBlockSpec conv2 b2 pool (convBlockSpec conv1 b1 pool x))) ∧
    classifierOptimizer = OptimizerSpec.sgd (1/1000) (9/10) ∧
    train sgdStep crossEntropy gradOf batches p
      = batches.foldl (fun q batch =>
          sgdStep q
            (gradOf (fun q2 => crossEntropy (Net.forward q2 true batch.1) batch.2)
              q)) p :=
  ⟨rfl, rfl, rfl⟩

/-- C7 evaluated at the failing input: applying the model to a test batch in
evaluation mode returns the output of the final fully connected layer
`fcn2 = nn.Linear(52, 10)`, of feature dimension 10 — the final 10-class
prediction — not a 128-dimensional intermediate representation, contradicting
the notebook's own `shape[1] should be 128` annotation on the evaluation
loop. -/
theorem c7_eval_output_is_final_prediction :
    (evalOutputs net0 img0).shape = [1, 10] ∧ (10 : ℕ) ≠ 128 :=
  ⟨rfl, by decide⟩

end Classifier

namespace NST

/-- Counterexample to C2: on the pretrained VGG-19 feature stack with the
default layer selections, the rebuilt model contains six inserted loss modules,
not two. -/
theorem c2_counterexample_six_not_two :
    (get_style_model_and_losses vgg19Features cnn_normalization_mean
        cnn_normalization_std img4 img4 content_layers_default
        style_layers_default).map (fun r => countLossModules r.1)
      = Except.ok 6 ∧ (6 : ℕ) ≠ 2 :=
  ⟨rfl, by decide⟩

/-- C2 amended: the scan inserts auxiliary loss modules of exactly two kinds,
and for the default layer selections (`content_layers_default = ['conv_4']`,
`style_layers_default = ['conv_1'..'conv_5']`) it adds exactly six of them to
the rebuilt model: one `ContentLoss` and five `StyleLoss` modules. -/
theorem c2_amended_one_content_five_style :
    (get_style_model_and_losses vgg19Features cnn_normalization_mean
        cnn_normalization_std img4 img4 content_layers_default
        style_layers_default).map
      (fun r => (countContentTaps r.1, countStyleTaps r.1)) = Except.ok (1, 5) :=
  rfl

theorem buildLoop_error_of_unrecognized (cl sl : List String) (ci si : Tens)
    (cs : List Child) :
    ∀ (i : ℕ) (model : List Module) (cls : List ContentLossM)
      (sls : List StyleLossM) (cname : String),
      firstUnrecognizedName cs = some cname →
      buildLoop cl sl ci si cs i model cls sls
        = .error ("Unrecognized layer: " ++ cname) := by
  induction cs with
  | nil => intro i model cls sls cname h; simp [firstUnrecognizedName] at h
  | cons c rest ih =>
    intro i model cls sls cname h
    cases c with
    | other cn =>
      simp only [firstUnrecognizedName, Option.some.injEq] at h
      subst h
      rfl
    | conv2d f =>
      simp only [firstUnrecognizedName] at h
      simp only [buildLoop, Child.classify]
      exact ih _ _ _ _ _ h
    | reLU ip f =>
      simp only [firstUnrecognizedName] at h
      simp only [buildLoop, Child.classify]
      exact ih _ _ _ _ _ h
    | maxPool2d f =>
      simp only [firstUnrecognizedName] at h
      simp only [buildLoop, Child.classify]
      exact ih _ _ _ _ _ h
    | batchNorm2d f =>
      simp only [firstUnrecognizedName] at h
      simp only [buildLoop, Child.classify]
      exact ih _ _ _ _ _ h

theorem buildLoop_ok_of_recognized (cl sl : List String) (ci si : Tens)
    (cs : List Child) :
    ∀ (i : ℕ) (model : List Module) (cls : List ContentLossM)
      (sls : List StyleLossM),
      firstUnrecognizedName cs = none →
      ∃ r, buildLoop cl sl ci si cs i model cls sls = .ok r := by
  induction cs with
  | nil => intro i model cls sls _; exact ⟨_, rfl⟩
  | cons c rest ih =>
    intro i model cls sls h
    cases c with
    | other cn => simp [firstUnrecognizedName] at h
    | conv2d f =>
      simp only [firstUnrecognizedName] at h
      simp only [buildLoop, Child.classify]
      exact ih _ _ _ _ h
    | reLU ip f =>
      simp only [firstUnrecognizedName] at h
      simp only [buildLoop, Child.classify]
      exact ih _ _ _ _ h
    | maxPool2d f =>
      simp only [firstUnrecognizedName] at h
      simp only [buildLoop, Child.classify]
      exact ih _ _ _ _ h
    | batchNorm2d f =>
      simp only [firstUnrecognizedName] at h
      simp only [buildLoop, Child.classify]
      exact ih _ _ _ _ h

theorem isNone_firstUnrecognized (cs : List Child) :
    (firstUnrecognizedName cs).isNone = cs.all Child.isRecognized := by
  induction cs with
  | nil => rfl
  | cons c rest ih =>
    cases c <;>
      simp [firstUnrecognizedName, Child.isRecognized, List.all_cons, ih]

/-- C10: `get_style_model_and_losses` raises a `RuntimeError` naming the
offending class if and only if some child of the network is none of `Conv2d`,
`ReLU`, `MaxPool2d`, `BatchNorm2d`; when every child is one of those four kinds
it completes normally and returns the triple
`(model, style_losses, content_losses)`. -/
theorem c10_error_iff_unrecognized_child (cnn : List Child)
    (mean std : List ℚ) (si ci : Tens) (cl sl : List String) :
    (firstUnrecognizedName cnn).isNone = cnn.all Child.isRecognized ∧
    (match firstUnrecognizedName cnn with
     | some cname =>
       get_style_model_and_losses cnn mean std si ci cl sl
         = .error ("Unrecognized layer: " ++ cname)
     | none =>
       ∃ m slm clm,
         get_style_model_and_losses cnn mean std si ci cl sl
           = .ok (m, slm, clm)) := by
  refine ⟨isNone_firstUnrecognized cnn, ?_⟩
  cases h : firstUnrecognizedName cnn with
  | some cname =>
    simp only [get_style_model_and_losses]
    rw [buildLoop_error_of_unrecognized cl sl ci si cnn 0 _ _ _ cname h]
  | none =>
    obtain ⟨⟨m, cls, sls⟩, hr⟩ := buildLoop_ok_of_recognized cl sl ci si cnn 0
      [Module.norm (Normalization.mk mean std)] [] [] h
    refine ⟨m.take (lastLossIdx m + 1), sls, cls, ?_⟩
    simp only [get_style_model_and_losses]
    rw [hr]

/-- C8: a complete run of `run_style_transfer` leaves the pretrained network
unchanged — the scan deep-copies it and the optimizer holds the input image as
its sole registered parameter, so only the image is mutated. -/
theorem c8_pretrained_weights_unchanged
    (lbfgs_step : (Tens → ℚ) → Tens → Tens) (st : TransferState)
    (mean std : List ℚ) (ci si : Tens) (n : ℕ) (sw cw : ℚ)
    (cl sl : List String) (st' : TransferState)
    (h : run_style_transfer lbfgs_step st mean std ci si n sw cw cl sl
      = .ok st') :
    st'.cnn = st.cnn ∧
    (get_input_optimizer st.input_img).params = [st.input_img] := by
  refine ⟨?_, rfl⟩
  unfold run_style_transfer at h
  cases hg : get_style_model_and_losses st.cnn mean std si ci cl sl with
  | error e => rw [hg] at h; exact absurd h (by simp)
  | ok r =>
    obtain ⟨model, slm, clm⟩ := r
    rw [hg] at h
    simp only [Except.ok.injEq] at h
    rw [← h]

/-- Witness for C8: a concrete run on the trivial state succeeds and preserves
the network. -/
theorem c8_witness :
    run_style_transfer (fun _ t => t) st0 [] [] img4 img4 1 1 1 [] []
      = Except.ok st0 ∧
    (get_input_optimizer st0.input_img).params = [st0.input_img] := by
  have h : run_style_transfer (fun _ t => t) st0 [] [] img4 img4 1 1 1 [] []
      = Except.ok st0 := rfl
  exact ⟨h,
    (c8_pretrained_weights_unchanged (fun _ t => t) st0 [] [] img4 img4 1 1 1
      [] [] st0 h).2⟩

end NST

namespace NST

theorem modelForward_content_losses_are_mse (model : List Module) :
    ∀ x : Tens,
      ((modelForward model x).2.1).Forall fun l => ∃ u v, l = mse_loss u v := by
  induction model with
  | nil => intro x; trivial
  | cons m rest ih =>
    intro x
    cases m with
    | norm nm => exact ih (nm.forward x)
    | layer name kind f => exact ih (f x)
    | contentTap name cm =>
      rw [show (modelForward (Module.contentTap name cm :: rest) x).2.1
            = mse_loss x cm.target :: (modelForward rest x).2.1 from rfl,
        List.forall_cons]
      exact ⟨⟨x, cm.target, rfl⟩, ih x⟩
    | styleTap name sm => exact ih x

theorem styleTargetsAreGrams_take (model : List Module) (n : ℕ)
    (h : styleTargetsAreGrams model) : styleTargetsAreGrams (model.take n) :=
  fun name sm hm => h name sm (List.take_subset n model hm)

theorem styleTargetsAreGrams_append {m1 m2 : List Module}
    (h1 : styleTargetsAreGrams m1) (h2 : styleTargetsAreGrams m2) :
    styleTargetsAreGrams (m1 ++ m2) := by
  intro name sm hm
  rcases List.mem_append.mp hm with hmem | hmem
  exacts [h1 name sm hmem, h2 name sm hmem]

theorem styleTargetsAreGrams_singleton_layer (name : String) (k : Kind)
    (f : Tens → Tens) : styleTargetsAreGrams [Module.layer name k f] := by
  intro name' sm hm
  simp at hm

theorem styleTargetsAreGrams_singleton_content (name : String)
    (cm : ContentLossM) : styleTargetsAreGrams [Module.contentTap name cm] := by
  intro name' sm hm
  simp at hm

theorem styleTargetsAreGrams_singleton_style (name : String) (tf : Tens) :
    styleTargetsAreGrams [Module.styleTap name (StyleLossM.init tf)] := by
  intro name' sm hm
  simp at hm
  refine ⟨tf, ?_⟩
  rw [hm.2]
  rfl

theorem modelForward_style_losses_are_gram_mse (model : List Module)
    (hm : styleTargetsAreGrams model) :
    ∀ x : Tens,
      ((modelForward model x).2.2).Forall fun l =>
        ∃ u v, l = mse_loss (gram_matrix u) (gram_matrix v) := by
  induction model with
  | nil => intro x; trivial
  | cons m rest ih =>
    have hrest : styleTargetsAreGrams rest :=
      fun name sm h => hm name sm (List.mem_cons_of_mem _ h)
    intro x
    cases m with
    | norm nm => exact ih hrest (nm.forward x)
    | layer name kind f => exact ih hrest (f x)
    | contentTap name cm => exact ih hrest x
    | styleTap name sm =>
      rw [show (modelForward (Module.styleTap name sm :: rest) x).2.2
            = mse_loss (gram_matrix x) sm.target :: (modelForward rest x).2.2
          from rfl,
        List.forall_cons]
      obtain ⟨t, ht⟩ := hm name sm (List.mem_cons_self _ _)
      exact ⟨⟨x, t, by rw [ht]⟩, ih hrest x⟩

theorem buildLoop_preserves_styleTargets (cl sl : List String) (ci si : Tens)
    (cs : List Child) :
    ∀ (i : ℕ) (model : List Module) (cls : List ContentLossM)
      (sls : List StyleLossM) (m' : List Module) (c' : List ContentLossM)
      (s' : List StyleLossM),
      styleTargetsAreGrams model →
      buildLoop cl sl ci si cs i model cls sls = .ok (m', c', s') →
      styleTargetsAreGrams m' := by
  induction cs with
  | nil =>
    intro i model cls sls m' c' s' hm h
    simp only [buildLoop, Except.ok.injEq, Prod.mk.injEq] at h
    rw [← h.1]
    exact hm
  | cons c rest ih =>
    intro i model cls sls m' c' s' hm h
    cases c <;> simp only [buildLoop, Child.classify] at h
    case other cn => exact absurd h (by simp)
    all_goals
      split at h <;> split at h <;>
      · dsimp only at h
        refine ih _ _ _ _ _ _ _ ?_ h
        repeat' apply styleTargetsAreGrams_append
        all_goals
          first
            | exact hm
            | exact styleTargetsAreGrams_singleton_layer _ _ _
            | exact styleTargetsAreGrams_singleton_content _ _
            | exact styleTargetsAreGrams_singleton_style _ _

end NST

namespace NST

/-- C3: `run_style_transfer` optimizes a single image tensor — the input image
is the sole parameter registered with the L-BFGS optimizer — and the closure's
objective equals `style_weight` times the sum of the recorded style losses plus
`content_weight` times the sum of the recorded content losses, where every
recorded content loss is a mean-squared error and every recorded style loss is
a mean-squared error between Gram matrices. -/
theorem c3_objective_is_weighted_sum_of_mse
    (cnn : List Child) (mean std : List ℚ) (si ci : Tens) (cl sl : List String)
    (model : List Module) (slm : List StyleLossM) (clm : List ContentLossM)
    (x : Tens) (sw cw : ℚ)
    (hb : get_style_model_and_losses cnn mean std si ci cl sl
      = .ok (model, slm, clm)) :
    (get_input_optimizer x).params = [x] ∧
    closure_objective model x sw cw
      = sw * ((modelForward model x).2.2).sum
        + cw * ((modelForward model x).2.1).sum ∧
    ((modelForward model x).2.1).Forall (fun l => ∃ u v, l = mse_loss u v) ∧
    ((modelForward model x).2.2).Forall
      (fun l => ∃ u v, l = mse_loss (gram_matrix u) (gram_matrix v)) := by
  refine ⟨rfl, ?_, modelForward_content_losses_are_mse model x, ?_⟩
  · simp only [closure_objective]
    rw [foldl_add_eq_sum, foldl_add_eq_sum]
    ring
  · have hgram : styleTargetsAreGrams model := by
      simp only [get_style_model_and_losses] at hb
      cases hbl : buildLoop cl sl ci si cnn 0
          [Module.norm (Normalization.mk mean std)] [] [] with
      | error e => rw [hbl] at hb; exact absurd hb (by simp)
      | ok r =>
        obtain ⟨m1, cls1, sls1⟩ := r
        rw [hbl] at hb
        simp only [Except.ok.injEq, Prod.mk.injEq] at hb
        rw [← hb.1]
        refine styleTargetsAreGrams_take _ _ ?_
        refine buildLoop_preserves_styleTargets cl sl ci si cnn 0
          [Module.norm (Normalization.mk mean std)] [] [] m1 cls1 sls1 ?_ hbl
        intro name sm hmem
        simp at hmem
    exact modelForward_style_losses_are_gram_mse model hgram x

/-- Witness for C3: the builder succeeds on the small concrete network, and the
input image is the optimizer's sole parameter. -/
theorem c3_witness :
    get_style_model_and_losses smallCnn cnn_normalization_mean
        cnn_normalization_std img4 img4 content_layers_default
        style_layers_default = Except.ok (model0, styleLosses0, contentLosses0) ∧
    (get_input_optimizer img4).params = [img4] := by
  have h : get_style_model_and_losses smallCnn cnn_normalization_mean
      cnn_normalization_std img4 img4 content_layers_default
      style_layers_default = Except.ok (model0, styleLosses0, contentLosses0) := rfl
  exact ⟨h,
    (c3_objective_is_weighted_sum_of_mse smallCnn cnn_normalization_mean
      cnn_normalization_std img4 img4 content_layers_default
      style_layers_default model0 styleLosses0 contentLosses0 img4 1 1 h).1⟩

end NST

namespace NST

theorem convCount_append (seen : List Child) (c : Child) :
    convCount (seen ++ [c]) = convCount seen + (if c.isConv2d then 1 else 0) := by
  unfold convCount
  rw [List.filter_append, List.length_append]
  congr 1
  cases hc : c.isConv2d <;> simp [List.filter_cons, hc]

theorem isTap_describe (m : Module) :
    (Module.describe m).isTap = m.isLossModule := by
  cases m <;> rfl

theorem take_lastLossIdx_eq_dropWhile (l : List Module)
    (h : ∃ m ∈ l, m.isLossModule = true) :
    l.take (lastLossIdx l + 1)
      = (l.reverse.dropWhile fun m => !m.isLossModule).reverse := by
  induction l using List.reverseRecOn with
  | nil => simp at h
  | append_singleton xs a ih =>
    cases pa : a.isLossModule with
    | true =>
      have hj : (xs ++ [a]).reverse.findIdx Module.isLossModule = 0 := by
        rw [List.reverse_append]
        simp [List.findIdx_cons, pa]
      have hidx : lastLossIdx (xs ++ [a]) = xs.length := by
        simp only [lastLossIdx]
        rw [hj]
        simp [List.length_append]
      have hrhs : ((xs ++ [a]).reverse.dropWhile fun m => !m.isLossModule).reverse
          = xs ++ [a] := by
        rw [List.reverse_append]
        simp [List.dropWhile_cons, pa]
      rw [hidx, hrhs, show xs.length + 1 = (xs ++ [a]).length from by simp,
        List.take_length]
    | false =>
      have hx : ∃ m ∈ xs, m.isLossModule = true := by
        obtain ⟨m, hm, hml⟩ := h
        rcases List.mem_append.mp hm with h1 | h1
        · exact ⟨m, h1, hml⟩
        · simp at h1
          subst h1
          rw [pa] at hml
          exact absurd hml (by simp)
      have hex : ∃ m ∈ xs.reverse, Module.isLossModule m = true := by
        obtain ⟨m, hm, hml⟩ := hx
        exact ⟨m, List.mem_reverse.mpr hm, hml⟩
      have hjlt : xs.reverse.findIdx Module.isLossModule < xs.length := by
        have hlt := List.findIdx_lt_length_of_exists hex
        simpa using hlt
      have hj : (xs ++ [a]).reverse.findIdx Module.isLossModule
          = xs.reverse.findIdx Module.isLossModule + 1 := by
        rw [List.reverse_append]
        simp [List.findIdx_cons, pa]
      have hidx : lastLossIdx (xs ++ [a]) = lastLossIdx xs := by
        simp only [lastLossIdx]
        rw [hj]
        simp only [List.length_append, List.length_singleton]
        rw [if_pos (by omega), if_pos hjlt]
        omega
      have hle : lastLossIdx xs + 1 ≤ xs.length := by
        simp only [lastLossIdx]
        rw [if_pos hjlt]
        omega
      rw [hidx, List.take_append_of_le_length hle, ih hx, List.reverse_append]
      simp [List.dropWhile_cons, pa]

theorem specTrim_map_describe (l : List Module) :
    specTrim (l.map Module.describe)
      = ((l.reverse.dropWhile fun m => !m.isLossModule).reverse).map
          Module.describe := by
  have hp : ((fun d : Desc => !d.isTap) ∘ Module.describe)
      = fun m : Module => !m.isLossModule := by
    funext m
    simp [Function.comp, isTap_describe]
  unfold specTrim
  rw [← List.map_reverse, List.dropWhile_map, hp, ← List.map_reverse]

theorem buildLoop_cons_eq (cl sl : List String) (ci si : Tens)
    (c : Child) (rest : List Child) (i i' : ℕ) (name : String) (kind : Kind)
    (fn : Tens → Tens) (model : List Module) (cls : List ContentLossM)
    (sls : List StyleLossM) (hcl : c.classify i = .ok (i', name, kind, fn)) :
    buildLoop cl sl ci si (c :: rest) i model cls sls
      = buildLoop cl sl ci si rest i'
          (buildStep cl sl ci si name kind fn i' model cls sls).1
          (buildStep cl sl ci si name kind fn i' model cls sls).2.1
          (buildStep cl sl ci si name kind fn i' model cls sls).2.2 := by
  cases c with
  | conv2d f0 =>
    simp only [Child.classify, Except.ok.injEq, Prod.mk.injEq] at hcl
    obtain ⟨h1, h2, h3, h4⟩ := hcl
    subst h1
    subst h2
    subst h3
    subst h4
    rfl
  | reLU ip f0 =>
    simp only [Child.classify, Except.ok.injEq, Prod.mk.injEq] at hcl
    obtain ⟨h1, h2, h3, h4⟩ := hcl
    subst h1
    subst h2
    subst h3
    subst h4
    rfl
  | maxPool2d f0 =>
    simp only [Child.classify, Except.ok.injEq, Prod.mk.injEq] at hcl
    obtain ⟨h1, h2, h3, h4⟩ := hcl
    subst h1
    subst h2
    subst h3
    subst h4
    rfl
  | batchNorm2d f0 =>
    simp only [Child.classify, Except.ok.injEq, Prod.mk.injEq] at hcl
    obtain ⟨h1, h2, h3, h4⟩ := hcl
    subst h1
    subst h2
    subst h3
    subst h4
    rfl
  | other cn => simp [Child.classify] at hcl

theorem buildStep_map_describe (cl sl : List String) (ci si : Tens)
    (name : String) (kind : Kind) (fn : Tens → Tens) (i' : ℕ)
    (model : List Module) (cls : List ContentLossM) (sls : List StyleLossM) :
    ((buildStep cl sl ci si name kind fn i' model cls sls).1).map Module.describe
      = model.map Module.describe ++
        (Desc.layer name kind ::
          ((if name ∈ cl then [Desc.contentTap ("content_loss_" ++ toString i')]
            else []) ++
           (if name ∈ sl then [Desc.styleTap ("style_loss_" ++ toString i')]
            else []))) := by
  unfold buildStep
  by_cases hc : name ∈ cl <;> by_cases hsy : name ∈ sl <;>
    simp [hc, hsy, List.map_append, Module.describe, List.append_assoc]

end NST

namespace NST

theorem buildLoop_describes_spec (cl sl : List String) (ci si : Tens)
    (cs : List Child) :
    ∀ (seen : List Child) (model : List Module) (cls : List ContentLossM)
      (sls : List StyleLossM),
      cs.all Child.isRecognized = true →
      ∃ m' c' s',
        buildLoop cl sl ci si cs (convCount seen) model cls sls
          = .ok (m', c', s') ∧
        m'.map Module.describe
          = model.map Module.describe ++ specDescGo cl sl seen cs := by
  induction cs with
  | nil =>
    intro seen model cls sls _
    exact ⟨model, cls, sls, rfl, by simp [specDescGo]⟩
  | cons c rest ih =>
    intro seen model cls sls hrec
    rw [List.all_cons, Bool.and_eq_true] at hrec
    cases c with
    | other cn => simp [Child.isRecognized] at hrec
    | conv2d f =>
      have hcc : convCount (seen ++ [Child.conv2d f]) = convCount seen + 1 := by
        rw [convCount_append]
        simp [Child.isConv2d]
      rw [buildLoop_cons_eq cl sl ci si (Child.conv2d f) rest (convCount seen)
        (convCount seen + 1) ("conv_" ++ toString (convCount seen + 1))
        Kind.conv f model cls sls rfl]
      obtain ⟨m', c', s', hok, hdesc⟩ := ih (seen ++ [Child.conv2d f])
        (buildStep cl sl ci si ("conv_" ++ toString (convCount seen + 1))
          Kind.conv f (convCount seen + 1) model cls sls).1
        (buildStep cl sl ci si ("conv_" ++ toString (convCount seen + 1))
          Kind.conv f (convCount seen + 1) model cls sls).2.1
        (buildStep cl sl ci si ("conv_" ++ toString (convCount seen + 1))
          Kind.conv f (convCount seen + 1) model cls sls).2.2 hrec.2
      rw [hcc] at hok
      refine ⟨m', c', s', hok, ?_⟩
      rw [hdesc, buildStep_map_describe]
      simp [specDescGo, Child.kindOf, Kind.label, hcc, List.append_assoc]
    | reLU ip f =>
      have hcc : convCount (seen ++ [Child.reLU ip f]) = convCount seen := by
        rw [convCount_append]
        simp [Child.isConv2d]
      rw [buildLoop_cons_eq cl sl ci si (Child.reLU ip f) rest (convCount seen)
        (convCount seen) ("relu_" ++ toString (convCount seen))
        Kind.relu reluT model cls sls rfl]
      obtain ⟨m', c', s', hok, hdesc⟩ := ih (seen ++ [Child.reLU ip f])
        (buildStep cl sl ci si ("relu_" ++ toString (convCount seen))
          Kind.relu reluT (convCount seen) model cls sls).1
        (buildStep cl sl ci si ("relu_" ++ toString (convCount seen))
          Kind.relu reluT (convCount seen) model cls sls).2.1
        (buildStep cl sl ci si ("relu_" ++ toString (convCount seen))
          Kind.relu reluT (convCount seen) model cls sls).2.2 hrec.2
      rw [hcc] at hok
      refine ⟨m', c', s', hok, ?_⟩
      rw [hdesc, buildStep_map_describe]
      simp [specDescGo, Child.kindOf, Kind.label, hcc, List.append_assoc]
    | maxPool2d f =>
      have hcc : convCount (seen ++ [Child.maxPool2d f]) = convCount seen := by
        rw [convCount_append]
        simp [Child.isConv2d]
      rw [buildLoop_cons_eq cl sl ci si (Child.maxPool2d f) rest (convCount seen)
        (convCount seen) ("pool_" ++ toString (convCount seen))
        Kind.pool f model cls sls rfl]
      obtain ⟨m', c', s', hok, hdesc⟩ := ih (seen ++ [Child.maxPool2d f])
        (buildStep cl sl ci si ("pool_" ++ toString (convCount seen))
          Kind.pool f (convCount seen) model cls sls).1
        (buildStep cl sl ci si ("pool_" ++ toString (convCount seen))
          Kind.pool f (convCount seen) model cls sls).2.1
        (buildStep cl sl ci si ("pool_" ++ toString (convCount seen))
          Kind.pool f (convCount seen) model cls sls).2.2 hrec.2
      rw [hcc] at hok
      refine ⟨m', c', s', hok, ?_⟩
      rw [hdesc, buildStep_map_describe]
      simp [specDescGo, Child.kindOf, Kind.label, hcc, List.append_assoc]
    | batchNorm2d f =>
      have hcc : convCount (seen ++ [Child.batchNorm2d f]) = convCount seen := by
        rw [convCount_append]
        simp [Child.isConv2d]
      rw [buildLoop_cons_eq cl sl ci si (Child.batchNorm2d f) rest (convCount seen)
        (convCount seen) ("bn_" ++ toString (convCount seen))
        Kind.bn f model cls sls rfl]
      obtain ⟨m', c', s', hok, hdesc⟩ := ih (seen ++ [Child.batchNorm2d f])
        (buildStep cl sl ci si ("bn_" ++ toString (convCount seen))
          Kind.bn f (convCount seen) model cls sls).1
        (buildStep cl sl ci si ("bn_" ++ toString (convCount seen))
          Kind.bn f (convCount seen) model cls sls).2.1
        (buildStep cl sl ci si ("bn_" ++ toString (convCount seen))
          Kind.bn f (convCount seen) model cls sls).2.2 hrec.2
      rw [hcc] at hok
      refine ⟨m', c', s', hok, ?_⟩
      rw [hdesc, buildStep_map_describe]
      simp [specDescGo, Child.kindOf, Kind.label, hcc, List.append_assoc]

end NST

namespace NST

/-- C1: `get_style_model_and_losses` is a single linear scan with string-based
layer naming — whenever every child of the passed-in network is recognized and
at least one loss module is inserted, the scan succeeds and the rebuilt model
consists, after a normalization module, of the children in order, each named
`conv_i` / `relu_i` / `pool_i` / `bn_i` with `i` the number of `Conv2d` layers
seen so far, with a loss-measurement module spliced immediately after every
layer whose name is in the content or style layer lists, and with every layer
after the last inserted loss module trimmed off. -/
theorem c1_scan_matches_spec_description (cnn : List Child)
    (mean std : List ℚ) (si ci : Tens) (cl sl : List String)
    (hrec : cnn.all Child.isRecognized = true)
    (hloss : (specDescGo cl sl [] cnn).any Desc.isTap = true) :
    ∃ m slm clm,
      get_style_model_and_losses cnn mean std si ci cl sl = .ok (m, slm, clm) ∧
      m.map Module.describe = specTrim (specModelDesc cl sl cnn) := by
  obtain ⟨m', c', s', hok, hdesc⟩ :=
    buildLoop_describes_spec cl sl ci si cnn []
      [Module.norm (Normalization.mk mean std)] [] [] hrec
  have h0 : convCount ([] : List Child) = 0 := rfl
  rw [h0] at hok
  have hdesc' : m'.map Module.describe
      = Desc.norm :: specDescGo cl sl [] cnn := by
    simpa using hdesc
  have hexdesc : ∃ d ∈ specDescGo cl sl [] cnn, Desc.isTap d = true := by
    obtain ⟨d, hd, htap⟩ := List.any_eq_true.mp hloss
    exact ⟨d, hd, htap⟩
  have hex : ∃ m ∈ m', Module.isLossModule m = true := by
    obtain ⟨d, hd, htap⟩ := hexdesc
    have hdm : d ∈ m'.map Module.describe := by
      rw [hdesc']
      exact List.mem_cons_of_mem _ hd
    obtain ⟨m, hm, hmd⟩ := List.mem_map.mp hdm
    refine ⟨m, hm, ?_⟩
    rw [← isTap_describe, hmd]
    exact htap
  refine ⟨m'.take (lastLossIdx m' + 1), s', c', ?_, ?_⟩
  · simp only [get_style_model_and_losses]
    rw [hok]
  · calc (m'.take (lastLossIdx m' + 1)).map Module.describe
        = ((m'.reverse.dropWhile fun m => !m.isLossModule).reverse).map
            Module.describe := by
          rw [take_lastLossIdx_eq_dropWhile m' hex]
      _ = specTrim (m'.map Module.describe) := (specTrim_map_describe m').symm
      _ = specTrim (specModelDesc cl sl cnn) := by rw [hdesc']; rfl

/-- Witness for C1 on the small concrete network with the default layer
selections. -/
theorem c1_witness :
    smallCnn.all Child.isRecognized = true ∧
    (specDescGo content_layers_default style_layers_default []
      smallCnn).any Desc.isTap = true ∧
    ∃ m slm clm,
      get_style_model_and_losses smallCnn cnn_normalization_mean
          cnn_normalization_std img4 img4 content_layers_default
          style_layers_default = .ok (m, slm, clm) ∧
      m.map Module.describe
        = specTrim (specModelDesc content_layers_default
            style_layers_default smallCnn) :=
  ⟨rfl, rfl,
    c1_scan_matches_spec_description smallCnn cnn_normalization_mean
      cnn_normalization_std img4 img4 content_layers_default
      style_layers_default rfl rfl⟩

end NST
